import Mathlib

/-!
# Verification of the AIMD throttle semaphore (`funktools/_throttle.py`)

Shallow embedding of the `AIMDSemaphore` data model and of the operations
`_release`, `_wait`, `acquire` (holder-gate admission, AIMD backoff, and the
pane-rotation loop) and of the semaphore construction performed by the
dataclass (`__post_init__`) and by `Decorator.__call__`.

Python `int` fields are modelled as `Int`; `float` quantities (timestamps,
`multiplicative_decrease`, `window`) are modelled exactly as `ℚ`.  The
`panes` min-heap (`heapq`) is modelled as a sorted list: `heappush` is
ordered insertion and `heappushpop` is ordered insertion followed by
removal of the minimum (the head), which is exactly the multiset semantics
of the `heapq` calls in the source.
-/

/-- State of `AIMDSemaphore` (fields of the dataclass, lines 50-67 of
`_throttle.py`). -/
structure Sem where
  additive_increase : Int
  multiplicative_decrease : ℚ
  max_holders : Int
  max_waiters : Int
  value : Int
  per_pane : Int
  per_window : Int
  window : ℚ
  holders : Int := 0
  holders_this_pane : Int := 0
  panes : List ℚ := []
  waiters : Int := 0
  pane_pending : Bool := false
deriving Repr, DecidableEq

/-- Python `int()` applied to an exact rational: truncation toward zero. -/
def pyInt (q : ℚ) : Int := if 0 ≤ q then ⌊q⌋ else ⌈q⌉

/-- Constructor `AIMDSemaphore.__init__` followed by `__post_init__` (line 78-79):
all configuration is stored as given, `holders = 0`, `panes = []`,
`waiters = 0`, `pane_pending = False`, and `holders_this_pane` is set to
`per_pane`.  The dataclass performs no runtime validation. -/
def mkAIMDSemaphore (ai : Int) (md : ℚ) (mh mw v pp pw : Int) (w : ℚ) : Sem :=
  { additive_increase := ai
    multiplicative_decrease := md
    max_holders := mh
    max_waiters := mw
    value := v
    per_pane := pp
    per_window := pw
    window := w
    holders_this_pane := pp }

/-- The semaphore built by `Decorator.__call__` (lines 400-409):
`additive_increase` is zeroed when `multiplicative_decrease` is falsy and
vice versa, `per_pane` is clamped to `min(per_pane, per_window)`, and
`value` starts at `start`. -/
def decoratorSemaphore (ai : Int) (md : ℚ) (mh mw start : Int) (w : ℚ) (pp pw : Int) : Sem :=
  mkAIMDSemaphore (if md ≠ 0 then ai else 0) (if ai ≠ 0 then md else 0)
    mh mw start (min pp pw) pw w

/-- Method `AIMDSemaphore._release` (lines 81-96).  The `match ok` statement:
`case True if value <= 0` sets `value = 1`; `case True if
additive_increase and holders > value - int(value * multiplicative_decrease)`
grows `value`; `case False if value > 0` floor-halves (`//= 2`); `case
False` decrements.  A `True` call matching no guard leaves `value`
unchanged.  In all cases `holders` is decremented afterwards.  Python `//`
is floor division (`Int.fdiv`); truthiness of the `int` field
`additive_increase` is `≠ 0`. -/
def releaseHolder (s : Sem) (ok : Bool) : Sem :=
  let s1 : Sem :=
    if ok then
      if s.value ≤ 0 then { s with value := 1 }
      else if s.additive_increase ≠ 0 ∧
          s.value - pyInt ((s.value : ℚ) * s.multiplicative_decrease) < s.holders then
        { s with value := s.value + s.additive_increase }
      else s
    else
      if 0 < s.value then { s with value := s.value.fdiv 2 }
      else { s with value := s.value - 1 }
  { s1 with holders := s1.holders - 1 }

/-- Shorthand for `release(False)`, the failed-release transition. -/
def relFail (s : Sem) : Sem := releaseHolder s false

/-- The holder-gate admission bound (lines 127 / 189):
`max(1, min(value, max_holders))`. -/
def holderBound (s : Sem) : Int := max 1 (min s.value s.max_holders)

/-- The AIMD backoff performed inside `acquire` right after admission
(lines 131-132): if `value <= 0 and multiplicative_decrease` (truthy),
sleep for `(1 / multiplicative_decrease) ** -value` time units, else no
sleep. -/
def backoffDelay (s : Sem) : Option ℚ :=
  if s.value ≤ 0 ∧ s.multiplicative_decrease ≠ 0 then
    some ((1 / s.multiplicative_decrease) ^ (-s.value).toNat)
  else none

/-- Entry of `AIMDSemaphore._wait` (lines 115-119 / 177-181): if
`waiters >= max_waiters` raise the capacity-exceeded exception (second
component `true`) without touching any state; otherwise increment
`waiters` and start waiting. -/
def waitEnter (s : Sem) : Sem × Bool :=
  if s.max_waiters ≤ s.waiters then (s, true)
  else ({ s with waiters := s.waiters + 1 }, false)

/-- The `finally` clause of `_wait` (line 123 / 185): decrement `waiters`
when the wait ends. -/
def waitExit (s : Sem) : Sem := { s with waiters := s.waiters - 1 }

/-- Model of `heapq.heappush` on the sorted-list model of the `panes` heap. -/
def hpush (x : ℚ) (l : List ℚ) : List ℚ := l.orderedInsert (· ≤ ·) x

/-- Model of `heapq.heappushpop`: push, then pop the minimum (the head of the
sorted list).  On an empty heap the pushed element is popped right back,
matching `heapq.heappushpop([], x)`. -/
def hpushpop (x : ℚ) (l : List ℚ) : List ℚ := (hpush x l).tail

/-- Outcome of one observation of the pane loop (lines 134-154 / 196-216). -/
inductive PaneEvent where
  /-- Case `holders_this_pane < per_pane`: the loop condition fails and the
  caller is admitted (`holders_this_pane += 1`). -/
  | admitted
  /-- Case where `pane_pending` is set: wait on the panes condition. -/
  | waitGate
  /-- A fresh pane was opened (empty-ledger, expired-top, or
  under-capacity branch); the loop re-tests. -/
  | opened
  /-- Window truly full: `pane_pending` is claimed and the caller sleeps
  `delay` time units with the lock released. -/
  | sleepUntil (delay : ℚ)
deriving Repr, DecidableEq

/-- One iteration of the pane loop of `acquire`, at wall-clock time `now`
(each iteration makes at most one `time.time()` call).  Branches in source
order: loop exit (+ admission), `pane_pending` wait, empty ledger
(`heappush(now + window)`), expired top (`panes[0] < now`:
`heappushpop(now + window)`), aggregate capacity
(`len(panes) * per_pane + holders_this_pane < per_window`:
`heappush(now + window)`), else claim `pane_pending` and sleep
`panes[0] - now`. -/
def paneStep (s : Sem) (now : ℚ) : Sem × PaneEvent :=
  if s.holders_this_pane < s.per_pane then
    ({ s with holders_this_pane := s.holders_this_pane + 1 }, .admitted)
  else if s.pane_pending then (s, .waitGate)
  else if s.panes.isEmpty then
    ({ s with holders_this_pane := 0, panes := hpush (now + s.window) s.panes }, .opened)
  else if s.panes.head! < now then
    ({ s with holders_this_pane := 0, panes := hpushpop (now + s.window) s.panes }, .opened)
  else if (s.panes.length : Int) * s.per_pane + s.holders_this_pane < s.per_window then
    ({ s with holders_this_pane := 0, panes := hpush (now + s.window) s.panes }, .opened)
  else
    ({ s with pane_pending := true }, .sleepUntil (s.panes.head! - now))

/-- The rotation performed after the full-window sleep (lines 150-153):
clear `pane_pending`, reset `holders_this_pane`, and
`heappushpop(panes, panes[0] + window)`; returns the count
`per_pane + 1` passed to `panes_condition.notify`. -/
def finishRotation (s : Sem) : Sem × Int :=
  ({ s with pane_pending := false
            holders_this_pane := 0
            panes := hpushpop (s.panes.head! + s.window) s.panes },
   s.per_pane + 1)

/-- Holder-gate transitions: an admission (the `while` test of line 127
fails, `holders += 1`) or a `release(ok)` by one of the current holders. -/
inductive HStep : Sem → Sem → Prop
  | grant (s : Sem) : s.holders < holderBound s →
      HStep s { s with holders := s.holders + 1 }
  | release (s : Sem) (ok : Bool) : 0 < s.holders → HStep s (releaseHolder s ok)

/-- Pane-gate transitions: one iteration of the pane loop at an arbitrary
time, or the completion of a pending rotation. -/
inductive PStep : Sem → Sem → Prop
  | step (s : Sem) (now : ℚ) : PStep s (paneStep s now).1
  | finish (s : Sem) : s.pane_pending = true → PStep s (finishRotation s).1

lemma pyInt_of_nonneg {q : ℚ} (h : 0 ≤ q) : pyInt q = ⌊q⌋ := if_pos h

lemma releaseHolder_holders (s : Sem) (ok : Bool) :
    (releaseHolder s ok).holders = s.holders - 1 := by
  simp only [releaseHolder]
  split_ifs <;> rfl

lemma releaseHolder_panes (s : Sem) (ok : Bool) :
    (releaseHolder s ok).panes = s.panes := by
  simp only [releaseHolder]
  split_ifs <;> rfl

lemma releaseHolder_holders_this_pane (s : Sem) (ok : Bool) :
    (releaseHolder s ok).holders_this_pane = s.holders_this_pane := by
  simp only [releaseHolder]
  split_ifs <;> rfl

lemma releaseHolder_pane_pending (s : Sem) (ok : Bool) :
    (releaseHolder s ok).pane_pending = s.pane_pending := by
  simp only [releaseHolder]
  split_ifs <;> rfl

lemma relFail_value_eq (s : Sem) :
    (relFail s).value = if 0 < s.value then s.value.fdiv 2 else s.value - 1 := by
  simp only [relFail, releaseHolder, Bool.false_eq_true, if_false]
  split_ifs <;> rfl

lemma relFail_value_le (s : Sem) : (relFail s).value ≤ s.value - 1 := by
  rw [relFail_value_eq]
  split_ifs with h
  · rw [Int.fdiv_eq_ediv _ (by norm_num)]
    omega
  · omega

lemma relFail_iter_le (s : Sem) (n : Nat) :
    ((relFail)^[n] s).value ≤ s.value - n := by
  induction n generalizing s with
  | zero => simp
  | succ n ih =>
    rw [Function.iterate_succ_apply]
    have h1 := ih (relFail s)
    have h2 := relFail_value_le s
    push_cast at h1 ⊢
    omega

/-- C1: `release(ok)` updates `value` by the four-way AIMD case split of
the claim (success from `value ≤ 0` resets to 1; success under contention
with positive `additive_increase` grows additively; failure from positive
`value` floor-halves; failure from `value ≤ 0` decrements by 1; anything
else leaves `value` unchanged), always decrements `holders` by exactly 1,
and never touches `panes`, `holders_this_pane` or `pane_pending`. -/
theorem release_follows_AIMD_rule (s : Sem) (ok : Bool)
    (hai : 0 ≤ s.additive_increase) (hmd : 0 ≤ s.multiplicative_decrease) :
    (releaseHolder s ok).value =
      (if ok = true ∧ s.value ≤ 0 then 1
       else if ok = true ∧ 0 < s.additive_increase ∧
           s.value - ⌊(s.value : ℚ) * s.multiplicative_decrease⌋ < s.holders then
         s.value + s.additive_increase
       else if ok = false ∧ 0 < s.value then s.value.fdiv 2
       else if ok = false ∧ s.value ≤ 0 then s.value - 1
       else s.value) ∧
    (releaseHolder s ok).holders = s.holders - 1 ∧
    (releaseHolder s ok).panes = s.panes ∧
    (releaseHolder s ok).holders_this_pane = s.holders_this_pane ∧
    (releaseHolder s ok).pane_pending = s.pane_pending := by
  refine ⟨?_, releaseHolder_holders s ok, releaseHolder_panes s ok,
    releaseHolder_holders_this_pane s ok, releaseHolder_pane_pending s ok⟩
  cases ok with
  | false =>
    rw [show releaseHolder s false = relFail s from rfl, relFail_value_eq]
    simp only [Bool.false_eq_true, false_and, if_false]
    by_cases hv : 0 < s.value
    · simp [hv]
    · simp [hv, show s.value ≤ 0 by omega]
  | true =>
    by_cases hv : s.value ≤ 0
    · simp [releaseHolder, hv]
    · have hvq : (0 : ℚ) ≤ (s.value : ℚ) := by
        exact_mod_cast (not_le.mp hv).le
      have hrw : pyInt ((s.value : ℚ) * s.multiplicative_decrease) =
          ⌊(s.value : ℚ) * s.multiplicative_decrease⌋ :=
        pyInt_of_nonneg (mul_nonneg hvq hmd)
      by_cases hg : s.additive_increase ≠ 0 ∧
          s.value - ⌊(s.value : ℚ) * s.multiplicative_decrease⌋ < s.holders
      · have hpos : 0 < s.additive_increase := by omega
        simp [releaseHolder, hv, hrw, hg.1, hg.2, hpos]
      · have hg2 : ¬ (0 < s.additive_increase ∧
            s.value - ⌊(s.value : ℚ) * s.multiplicative_decrease⌋ < s.holders) := by
          intro hc
          exact hg ⟨by omega, hc.2⟩
        simp [releaseHolder, hv, hrw, hg, hg2]

/-- Concrete instance of `release_follows_AIMD_rule`. -/
def c1W : Sem :=
  { additive_increase := 1, multiplicative_decrease := 0, max_holders := 10,
    max_waiters := 10, value := 5, per_pane := 3, per_window := 9,
    window := 0, holders := 6 }

theorem release_follows_AIMD_rule_witness :
    0 ≤ c1W.additive_increase ∧ 0 ≤ c1W.multiplicative_decrease ∧
    ((releaseHolder c1W true).value =
      (if true = true ∧ c1W.value ≤ 0 then 1
       else if true = true ∧ 0 < c1W.additive_increase ∧
           c1W.value - ⌊(c1W.value : ℚ) * c1W.multiplicative_decrease⌋ < c1W.holders then
         c1W.value + c1W.additive_increase
       else if true = false ∧ 0 < c1W.value then c1W.value.fdiv 2
       else if true = false ∧ c1W.value ≤ 0 then c1W.value - 1
       else c1W.value) ∧
    (releaseHolder c1W true).holders = c1W.holders - 1 ∧
    (releaseHolder c1W true).panes = c1W.panes ∧
    (releaseHolder c1W true).holders_this_pane = c1W.holders_this_pane ∧
    (releaseHolder c1W true).pane_pending = c1W.pane_pending) :=
  ⟨by decide, by decide, release_follows_AIMD_rule c1W true (by decide) (by decide)⟩

/-- The decorator-built semaphore of the C3 scenario:
`start = 1`, `multiplicative_decrease = 0.5`. -/
def c3Start : Sem := decoratorSemaphore 1 (1/2) 10 10 1 0 10 10

/-- C3: whenever admission happens with `value ≤ 0` and
`multiplicative_decrease > 0`, the backoff sleep lasts exactly
`(1 / multiplicative_decrease) ^ (-value)` time units; concretely, from
`start = 1`, `multiplicative_decrease = 0.5`, two `release(False)` calls
drive `value` from 1 to 0 to -1 and the next `acquire` sleeps exactly
`(1/0.5)^1 = 2.0` time units. -/
theorem backoff_sleep_formula (s : Sem) (h1 : s.value ≤ 0)
    (h2 : 0 < s.multiplicative_decrease) :
    backoffDelay s = some ((1 / s.multiplicative_decrease) ^ (-s.value).toNat) ∧
    c3Start.value = 1 ∧
    (relFail c3Start).value = 0 ∧
    (relFail (relFail c3Start)).value = -1 ∧
    backoffDelay (relFail (relFail c3Start)) = some 2 := by
  have hf1 : Int.fdiv 1 2 = 0 := by decide
  refine ⟨?_, ?_, ?_, ?_, ?_⟩
  · rw [backoffDelay, if_pos ⟨h1, ne_of_gt h2⟩]
  · rfl
  · norm_num [relFail, releaseHolder, c3Start, decoratorSemaphore, mkAIMDSemaphore, hf1]
  · norm_num [relFail, releaseHolder, c3Start, decoratorSemaphore, mkAIMDSemaphore, hf1]
  · norm_num [relFail, releaseHolder, backoffDelay, c3Start, decoratorSemaphore,
      mkAIMDSemaphore, hf1]

/-- Concrete instance of `backoff_sleep_formula`. -/
def c3W : Sem :=
  { additive_increase := 1, multiplicative_decrease := 1, max_holders := 10,
    max_waiters := 10, value := -2, per_pane := 3, per_window := 9,
    window := 0 }

theorem backoff_sleep_formula_witness :
    c3W.value ≤ 0 ∧ 0 < c3W.multiplicative_decrease ∧
    (backoffDelay c3W =
      some ((1 / c3W.multiplicative_decrease) ^ (-c3W.value).toNat) ∧
    c3Start.value = 1 ∧
    (relFail c3Start).value = 0 ∧
    (relFail (relFail c3Start)).value = -1 ∧
    backoffDelay (relFail (relFail c3Start)) = some 2) :=
  ⟨by decide, by simp [c3W], backoff_sleep_formula c3W (by decide) (by simp [c3W])⟩

/-- C4: while `value > 0` every failed release floor-halves `value`
(strictly decreasing), so after `value.toNat` failed releases `value`
is at or below 0; and once `value ≤ 0`, each further failed release
decrements `value` by exactly 1. -/
theorem failed_release_drains_value (s : Sem) :
    (0 < s.value → (relFail s).value = s.value.fdiv 2 ∧ (relFail s).value < s.value) ∧
    (s.value ≤ 0 → (relFail s).value = s.value - 1) ∧
    ((relFail)^[s.value.toNat] s).value ≤ 0 := by
  refine ⟨fun h => ⟨?_, ?_⟩, fun h => ?_, ?_⟩
  · rw [relFail_value_eq, if_pos h]
  · have := relFail_value_le s
    omega
  · rw [relFail_value_eq, if_neg (by omega)]
  · have := relFail_iter_le s s.value.toNat
    omega

/-- Concrete instance of `failed_release_drains_value`. -/
def c4W : Sem :=
  { additive_increase := 1, multiplicative_decrease := 0, max_holders := 10,
    max_waiters := 10, value := 5, per_pane := 3, per_window := 9,
    window := 0, holders := 2 }

theorem failed_release_drains_value_witness :
    (0 < c4W.value → (relFail c4W).value = c4W.value.fdiv 2 ∧
      (relFail c4W).value < c4W.value) ∧
    (c4W.value ≤ 0 → (relFail c4W).value = c4W.value - 1) ∧
    ((relFail)^[c4W.value.toNat] c4W).value ≤ 0 :=
  failed_release_drains_value c4W

/-- C5: the gate wait raises the capacity-exceeded error exactly when
`waiters ≥ max_waiters` already holds at the moment the caller would
start waiting; the raise leaves the state (in particular `waiters`)
untouched, and a successful wait entry increments `waiters` to at most
`max_waiters`. -/
theorem wait_capacity_check (s : Sem) :
    ((waitEnter s).2 = true ↔ s.max_waiters ≤ s.waiters) ∧
    ((waitEnter s).2 = true → (waitEnter s).1 = s) ∧
    ((waitEnter s).2 = false →
      (waitEnter s).1 = { s with waiters := s.waiters + 1 } ∧
      (waitEnter s).1.waiters ≤ s.max_waiters) := by
  unfold waitEnter
  split_ifs with h
  · simp [h]
  · refine ⟨by simp [h], by simp, fun _ => ⟨rfl, ?_⟩⟩
    simp only []
    omega

/-- Concrete instance of `wait_capacity_check`: a semaphore already at
`waiters = max_waiters = 2`, whose next would-be waiter is rejected. -/
def c5W : Sem :=
  { additive_increase := 1, multiplicative_decrease := 0, max_holders := 10,
    max_waiters := 2, value := 5, per_pane := 3, per_window := 9,
    window := 0, waiters := 2 }

theorem wait_capacity_check_witness :
    ((waitEnter c5W).2 = true ↔ c5W.max_waiters ≤ c5W.waiters) ∧
    ((waitEnter c5W).2 = true → (waitEnter c5W).1 = c5W) ∧
    ((waitEnter c5W).2 = false →
      (waitEnter c5W).1 = { c5W with waiters := c5W.waiters + 1 } ∧
      (waitEnter c5W).1.waiters ≤ c5W.max_waiters) :=
  wait_capacity_check c5W

/-- C9: the Decorator zeroes `additive_increase` whenever the configured
`multiplicative_decrease` is 0 and zeroes `multiplicative_decrease`
whenever the configured `additive_increase` is 0, so AIMD adaptation is
all-or-nothing; with `additive_increase = 0` and
`multiplicative_decrease = 0.5` the built semaphore has
`multiplicative_decrease = 0.0` and the backoff sleep never fires. -/
theorem decorator_couples_AIMD_parameters (ai : Int) (md : ℚ) (mh mw start : Int)
    (w : ℚ) (pp pw : Int) :
    (md = 0 → (decoratorSemaphore ai md mh mw start w pp pw).additive_increase = 0) ∧
    (ai = 0 → (decoratorSemaphore ai md mh mw start w pp pw).multiplicative_decrease = 0) ∧
    (decoratorSemaphore 0 (1/2) mh mw start w pp pw).multiplicative_decrease = 0 ∧
    (∀ s : Sem, s.multiplicative_decrease = 0 → backoffDelay s = none) := by
  refine ⟨fun h => ?_, fun h => ?_, ?_, fun s h => ?_⟩
  · simp [decoratorSemaphore, mkAIMDSemaphore, h]
  · simp [decoratorSemaphore, mkAIMDSemaphore, h]
  · simp [decoratorSemaphore, mkAIMDSemaphore]
  · simp [backoffDelay, h]

theorem decorator_couples_AIMD_parameters_witness :
    ((0 : ℚ) = 0 → (decoratorSemaphore 7 0 10 10 1 0 5 5).additive_increase = 0) ∧
    ((7 : Int) = 0 → (decoratorSemaphore 7 0 10 10 1 0 5 5).multiplicative_decrease = 0) ∧
    (decoratorSemaphore 0 (1/2) 10 10 1 0 5 5).multiplicative_decrease = 0 ∧
    (∀ s : Sem, s.multiplicative_decrease = 0 → backoffDelay s = none) :=
  decorator_couples_AIMD_parameters 7 0 10 10 1 0 5 5

/-- C10: a freshly constructed semaphore has
`holders_this_pane = per_pane`, so its first `acquire` enters the pane
loop, finds the ledger empty, resets `holders_this_pane` to 0 and pushes
`now + window` as the first ledger entry, and only then admits the caller
(leaving `holders_this_pane = 1`). -/
theorem first_acquire_opens_first_pane (ai : Int) (md : ℚ) (mh mw v pp pw : Int)
    (w : ℚ) (now : ℚ) (hpp : 0 < pp) :
    (mkAIMDSemaphore ai md mh mw v pp pw w).holders_this_pane =
      (mkAIMDSemaphore ai md mh mw v pp pw w).per_pane ∧
    paneStep (mkAIMDSemaphore ai md mh mw v pp pw w) now =
      ({ mkAIMDSemaphore ai md mh mw v pp pw w with
          holders_this_pane := 0, panes := [now + w] }, .opened) ∧
    paneStep { mkAIMDSemaphore ai md mh mw v pp pw w with
          holders_this_pane := 0, panes := [now + w] } now =
      ({ mkAIMDSemaphore ai md mh mw v pp pw w with
          holders_this_pane := 1, panes := [now + w] }, .admitted) := by
  refine ⟨rfl, ?_, ?_⟩
  · simp [paneStep, mkAIMDSemaphore, hpush, lt_irrefl]
  · simp [paneStep, mkAIMDSemaphore, hpp]

theorem first_acquire_opens_first_pane_witness :
    (0 : Int) < 3 ∧
    ((mkAIMDSemaphore 1 0 10 10 1 3 9 2).holders_this_pane =
      (mkAIMDSemaphore 1 0 10 10 1 3 9 2).per_pane ∧
    paneStep (mkAIMDSemaphore 1 0 10 10 1 3 9 2) 100 =
      ({ mkAIMDSemaphore 1 0 10 10 1 3 9 2 with
          holders_this_pane := 0, panes := [100 + 2] }, .opened) ∧
    paneStep { mkAIMDSemaphore 1 0 10 10 1 3 9 2 with
          holders_this_pane := 0, panes := [100 + 2] } 100 =
      ({ mkAIMDSemaphore 1 0 10 10 1 3 9 2 with
          holders_this_pane := 1, panes := [100 + 2] }, .admitted)) :=
  ⟨by decide, first_acquire_opens_first_pane 1 0 10 10 1 3 9 2 100 (by decide)⟩

/-- C8 counterexample: the claim says out-of-range parameters are
rejected at construction time, but `AIMDSemaphore` is a plain dataclass
whose annotations are not enforced: constructing with
`additive_increase = -1`, `multiplicative_decrease = 2`,
`max_holders = 0`, `max_waiters = 0`, `start = -5` and `window = -1`
succeeds and stores exactly those values. -/
theorem construction_accepts_invalid_parameters :
    (mkAIMDSemaphore (-1) 2 0 0 (-5) 3 3 (-1)).additive_increase = -1 ∧
    (mkAIMDSemaphore (-1) 2 0 0 (-5) 3 3 (-1)).multiplicative_decrease = 2 ∧
    (mkAIMDSemaphore (-1) 2 0 0 (-5) 3 3 (-1)).max_holders = 0 ∧
    (mkAIMDSemaphore (-1) 2 0 0 (-5) 3 3 (-1)).max_waiters = 0 ∧
    (mkAIMDSemaphore (-1) 2 0 0 (-5) 3 3 (-1)).value = -5 ∧
    (mkAIMDSemaphore (-1) 2 0 0 (-5) 3 3 (-1)).window = -1 := by
  refine ⟨rfl, rfl, rfl, rfl, rfl, rfl⟩

/-- C8 amended: construction performs no runtime validation — every
parameter combination is accepted and stored as given (with
`holders_this_pane` initialised to `per_pane`); the only normalisation is
in the Decorator path, which clamps `per_pane` to
`min(per_pane, per_window)` (and applies the coupling of
`decorator_couples_AIMD_parameters`). -/
theorem construction_stores_parameters (ai : Int) (md : ℚ) (mh mw v pp pw : Int)
    (w : ℚ) :
    mkAIMDSemaphore ai md mh mw v pp pw w =
      { additive_increase := ai, multiplicative_decrease := md, max_holders := mh,
        max_waiters := mw, value := v, per_pane := pp, per_window := pw,
        window := w, holders := 0, holders_this_pane := pp, panes := [],
        waiters := 0, pane_pending := false } ∧
    (decoratorSemaphore ai md mh mw v w pp pw).per_pane = min pp pw :=
  ⟨rfl, rfl⟩

/-- The C2 scenario state after `k` holder admissions: `value = 8`,
generous `max_holders`/`max_waiters`, rate gate idle. -/
def c2s (k : Int) : Sem :=
  { additive_increase := 1, multiplicative_decrease := 0, max_holders := 1000,
    max_waiters := 1000, value := 8, per_pane := 10, per_window := 10,
    window := 0, holders := k, holders_this_pane := 10 }

/-- The violating state: after 8 admissions at `value = 8`, one
`release(False)` halves `value` to 4 but leaves 7 holders. -/
def c2Bad : Sem := { c2s 7 with value := 4 }

lemma c2_grant (k : Int) (hk : k < 8) : HStep (c2s k) (c2s (k + 1)) := by
  have e : c2s (k + 1) = { c2s k with holders := (c2s k).holders + 1 } := rfl
  rw [e]
  refine HStep.grant _ ?_
  simp only [c2s, holderBound]
  omega

/-- C2 counterexample: `holders ≤ max(1, min(value, max_holders))` is not
an invariant of every reachable state.  From a fresh semaphore with
`value = 8`, eight admissions followed by one completed `release(False)`
reach a state with `value = 4` and `holders = 7 > 4`, outside any
transient admission step. -/
theorem holder_bound_violated_after_failed_release :
    Relation.ReflTransGen HStep (mkAIMDSemaphore 1 0 1000 1000 8 10 10 0) c2Bad ∧
    holderBound c2Bad < c2Bad.holders := by
  constructor
  · have h0 : mkAIMDSemaphore 1 0 1000 1000 8 10 10 0 = c2s 0 := rfl
    rw [h0]
    have hrel : HStep (c2s 8) c2Bad := by
      have e : c2Bad = releaseHolder (c2s 8) false := by decide
      rw [e]
      exact HStep.release _ false (by decide)
    have chain : Relation.ReflTransGen HStep (c2s 0) (c2s 8) := by
      have r01 := c2_grant 0 (by decide)
      have r12 := c2_grant 1 (by decide)
      have r23 := c2_grant 2 (by decide)
      have r34 := c2_grant 3 (by decide)
      have r45 := c2_grant 4 (by decide)
      have r56 := c2_grant 5 (by decide)
      have r67 := c2_grant 6 (by decide)
      have r78 := c2_grant 7 (by decide)
      exact .head r01 (.head r12 (.head r23 (.head r34 (.head r45
        (.head r56 (.head r67 (.single r78)))))))
    exact chain.tail hrel
  · decide

lemma releaseHolder_true_value (s : Sem) :
    ((releaseHolder s true).value = 1 ∧ s.value ≤ 0) ∨
    ((releaseHolder s true).value = s.value + s.additive_increase ∧ 0 < s.value) ∨
    (releaseHolder s true).value = s.value := by
  by_cases hv : s.value ≤ 0
  · exact .inl ⟨by simp [releaseHolder, hv], hv⟩
  · by_cases hg : s.additive_increase ≠ 0 ∧
        s.value - pyInt ((s.value : ℚ) * s.multiplicative_decrease) < s.holders
    · exact .inr (.inl ⟨by simp [releaseHolder, hv, hg.1, hg.2], by omega⟩)
    · exact .inr (.inr (by simp [releaseHolder, hv, hg]))

lemma releaseHolder_max_holders (s : Sem) (ok : Bool) :
    (releaseHolder s ok).max_holders = s.max_holders := by
  simp only [releaseHolder]
  split_ifs <;> rfl

/-- C2 amended: the bound `holders ≤ max(1, min(value, max_holders))` is
preserved by every holder admission and by every `release(True)`, but not
by `release(False)`: a failed release that shrinks `value` can leave
`holders` above the bound, and the bound is only restored as holders
drain. -/
theorem holder_bound_preserved_by_entry_and_success (s : Sem)
    (hai : 0 ≤ s.additive_increase) (hinv : s.holders ≤ holderBound s) :
    (s.holders < holderBound s →
      ({ s with holders := s.holders + 1 } : Sem).holders ≤
        holderBound { s with holders := s.holders + 1 }) ∧
    (releaseHolder s true).holders ≤ holderBound (releaseHolder s true) := by
  constructor
  · intro h
    show s.holders + 1 ≤ holderBound { s with holders := s.holders + 1 }
    have e : holderBound { s with holders := s.holders + 1 } = holderBound s := rfl
    rw [e]
    omega
  · have hh := releaseHolder_holders s true
    have hmh := releaseHolder_max_holders s true
    rw [holderBound] at hinv ⊢
    rw [hh, hmh]
    rcases releaseHolder_true_value s with ⟨hv1, hv0⟩ | ⟨hva, hvp⟩ | hvs
    · rw [hv1]
      omega
    · rw [hva]
      omega
    · rw [hvs]
      omega

theorem holder_bound_preserved_witness :
    0 ≤ (c2s 3).additive_increase ∧ (c2s 3).holders ≤ holderBound (c2s 3) ∧
    (((c2s 3).holders < holderBound (c2s 3) →
      ({ c2s 3 with holders := (c2s 3).holders + 1 } : Sem).holders ≤
        holderBound { c2s 3 with holders := (c2s 3).holders + 1 }) ∧
    (releaseHolder (c2s 3) true).holders ≤ holderBound (releaseHolder (c2s 3) true)) :=
  ⟨by decide, by decide,
    holder_bound_preserved_by_entry_and_success (c2s 3) (by decide) (by decide)⟩

/-- C6: when the current pane is full, no rotation is pending, the ledger
is non-empty with an unexpired top, and the window is truly full, the
pane loop claims `pane_pending` and sleeps until the expiration of the oldest pane (`panes[0] - now`); the subsequent rotation replaces the
oldest ledger entry with `top + window` (not `now + window`), resets
`holders_this_pane` to 0, clears `pane_pending`, and notifies
`per_pane + 1` pane waiters. -/
theorem full_window_rotation (s : Sem) (now : ℚ)
    (h1 : s.per_pane ≤ s.holders_this_pane) (h2 : s.pane_pending = false)
    (h3 : s.panes ≠ []) (h4 : ¬ s.panes.head! < now)
    (h5 : s.per_window ≤ (s.panes.length : Int) * s.per_pane + s.holders_this_pane)
    (hw : 0 ≤ s.window) :
    paneStep s now =
      ({ s with pane_pending := true }, .sleepUntil (s.panes.head! - now)) ∧
    (finishRotation { s with pane_pending := true }).1.pane_pending = false ∧
    (finishRotation { s with pane_pending := true }).1.holders_this_pane = 0 ∧
    List.Perm (finishRotation { s with pane_pending := true }).1.panes
      ((s.panes.head! + s.window) :: s.panes.tail) ∧
    (finishRotation { s with pane_pending := true }).2 = s.per_pane + 1 := by
  refine ⟨?_, rfl, rfl, ?_, rfl⟩
  · simp only [paneStep]
    rw [if_neg (not_lt.mpr h1), if_neg (by simp [h2]), if_neg (by simpa using h3),
      if_neg h4, if_neg (not_lt.mpr h5)]
  · show List.Perm (hpushpop (s.panes.head! + s.window) s.panes)
      ((s.panes.head! + s.window) :: s.panes.tail)
    obtain ⟨h, t, e⟩ : ∃ h t, s.panes = h :: t := by
      cases hp : s.panes with
      | nil => exact absurd hp h3
      | cons h t => exact ⟨h, t, rfl⟩
    rw [e]
    simp only [List.head!_cons, List.tail_cons]
    by_cases hx : h + s.window ≤ h
    · have hxx : h + s.window = h := le_antisymm hx (by linarith)
      have ee : hpushpop (h + s.window) (h :: t) = h :: t := by
        rw [hpushpop, hpush]
        simp [List.orderedInsert, hx]
      rw [ee, hxx]
    · have ee : hpushpop (h + s.window) (h :: t) =
          List.orderedInsert (· ≤ ·) (h + s.window) t := by
        rw [hpushpop, hpush]
        simp [List.orderedInsert, hx]
      rw [ee]
      exact List.perm_orderedInsert _ _ _

/-- Concrete instance of `full_window_rotation`: `per_pane = 2`,
`per_window = 4`, two closed panes expiring at 10 and 12, current pane
full at time 9. -/
def c6W : Sem :=
  { additive_increase := 1, multiplicative_decrease := 0, max_holders := 10,
    max_waiters := 10, value := 5, per_pane := 2, per_window := 4,
    window := 5, holders := 1, holders_this_pane := 2, panes := [10, 12] }

theorem full_window_rotation_witness :
    c6W.per_pane ≤ c6W.holders_this_pane ∧ c6W.pane_pending = false ∧
    c6W.panes ≠ [] ∧ ¬ c6W.panes.head! < 9 ∧
    c6W.per_window ≤ (c6W.panes.length : Int) * c6W.per_pane + c6W.holders_this_pane ∧
    0 ≤ c6W.window ∧
    (paneStep c6W 9 =
      ({ c6W with pane_pending := true }, .sleepUntil (c6W.panes.head! - 9)) ∧
    (finishRotation { c6W with pane_pending := true }).1.pane_pending = false ∧
    (finishRotation { c6W with pane_pending := true }).1.holders_this_pane = 0 ∧
    List.Perm (finishRotation { c6W with pane_pending := true }).1.panes
      ((c6W.panes.head! + c6W.window) :: c6W.panes.tail) ∧
    (finishRotation { c6W with pane_pending := true }).2 = c6W.per_pane + 1) :=
  ⟨by decide, by decide, by decide, by decide, by decide, by decide,
    full_window_rotation c6W 9 (by decide) (by decide) (by decide) (by decide)
      (by decide) (by decide)⟩

lemma paneStep_per_pane (s : Sem) (now : ℚ) :
    (paneStep s now).1.per_pane = s.per_pane := by
  simp only [paneStep]
  split_ifs <;> rfl

lemma paneStep_per_window (s : Sem) (now : ℚ) :
    (paneStep s now).1.per_window = s.per_window := by
  simp only [paneStep]
  split_ifs <;> rfl

lemma hpush_length (x : ℚ) (l : List ℚ) : (hpush x l).length = l.length + 1 := by
  simp [hpush, List.orderedInsert_length]

lemma hpushpop_length (x : ℚ) (l : List ℚ) : (hpushpop x l).length = l.length := by
  simp [hpushpop, hpush, List.orderedInsert_length]

lemma paneStep_len_bound (s : Sem) (now : ℚ)
    (hle : s.per_pane ≤ s.per_window)
    (hlen : (s.panes.length : Int) * s.per_pane ≤ s.per_window) :
    ((paneStep s now).1.panes.length : Int) * s.per_pane ≤ s.per_window := by
  simp only [paneStep]
  split_ifs with c1 c2 c3 c4 c5
  · simpa using hlen
  · simpa using hlen
  · have h0 : s.panes = [] := by simpa using c3
    simp only [hpush_length, h0, List.length_nil]
    push_cast
    linarith
  · simp only [hpushpop_length]
    simpa using hlen
  · have hht : s.per_pane ≤ s.holders_this_pane := not_lt.mp c1
    simp only [hpush_length]
    push_cast
    push_cast at c5
    linarith
  · simpa using hlen

/-- The pane-ledger invariant: the aggregate capacity of the tracked panes
never exceeds `per_window` (with the configuration constraint
`per_pane ≤ per_window` carried along). -/
def PaneInv (s : Sem) : Prop :=
  (s.panes.length : Int) * s.per_pane ≤ s.per_window ∧ s.per_pane ≤ s.per_window

lemma paneInv_step {s s' : Sem} (h : PStep s s') (inv : PaneInv s) : PaneInv s' := by
  cases h with
  | step now =>
    constructor
    · rw [paneStep_per_pane, paneStep_per_window]
      exact paneStep_len_bound s now inv.2 inv.1
    · rw [paneStep_per_pane, paneStep_per_window]
      exact inv.2
  | finish hp =>
    constructor
    · show ((hpushpop (s.panes.head! + s.window) s.panes).length : Int) *
          s.per_pane ≤ s.per_window
      rw [hpushpop_length]
      exact inv.1
    · exact inv.2

/-- C7: for every semaphore configured with `0 < per_pane ≤ per_window`
and started with an empty ledger, in every state reachable through the
pane loop (all of its branches, at arbitrary times) the ledger holds at
most `per_window / per_pane` entries. -/
theorem pane_ledger_bounded (init s : Sem)
    (hpp : 0 < init.per_pane) (hle : init.per_pane ≤ init.per_window)
    (hpanes : init.panes = [])
    (hreach : Relation.ReflTransGen PStep init s) :
    (s.panes.length : Int) ≤ init.per_window / init.per_pane := by
  have key : s.per_pane = init.per_pane ∧ s.per_window = init.per_window ∧
      PaneInv s := by
    induction hreach with
    | refl =>
      refine ⟨rfl, rfl, ?_, hle⟩
      rw [hpanes]
      simp only [List.length_nil]
      push_cast
      omega
    | tail hr hstep ih =>
      obtain ⟨e1, e2, inv⟩ := ih
      refine ⟨?_, ?_, paneInv_step hstep inv⟩
      · cases hstep with
        | step now => rw [paneStep_per_pane]; exact e1
        | finish hp => exact e1
      · cases hstep with
        | step now => rw [paneStep_per_window]; exact e2
        | finish hp => exact e2
  obtain ⟨e1, e2, hlen, _⟩ := key
  rw [e1, e2] at hlen
  exact (Int.le_ediv_iff_mul_le hpp).mpr hlen

theorem pane_ledger_bounded_witness :
    0 < (mkAIMDSemaphore 1 0 10 10 5 2 4 0).per_pane ∧
    (mkAIMDSemaphore 1 0 10 10 5 2 4 0).per_pane ≤
      (mkAIMDSemaphore 1 0 10 10 5 2 4 0).per_window ∧
    (mkAIMDSemaphore 1 0 10 10 5 2 4 0).panes = [] ∧
    ((mkAIMDSemaphore 1 0 10 10 5 2 4 0).panes.length : Int) ≤
      (mkAIMDSemaphore 1 0 10 10 5 2 4 0).per_window /
        (mkAIMDSemaphore 1 0 10 10 5 2 4 0).per_pane :=
  ⟨by decide, by decide, by decide,
    pane_ledger_bounded _ _ (by decide) (by decide) (by decide)
      Relation.ReflTransGen.refl⟩
